import Mathlib

/-!
Verification of the Connect6 engine core (`src/Connect6-ecojmb`).

The Python sources are shallowly embedded: boards are functions from integer
coordinates to integer cell values, the mutable updates of the source become
functional updates, unbounded `while` walks along a direction become
fuel-bounded recursions (the fuel of 20 is never exhausted on boards whose
border frame is intact, which every theorem below assumes where it matters),
and code paths that raise Python exceptions return `Except`.
-/

set_option maxRecDepth 40000

namespace Connect6

/-- Modelled from the spec: `defines.py` is not part of the source tree; the
spec (section 3) fixes a 21x21 grid whose indices 0 and 20 are border
sentinels, playable cells holding one of empty / color A / color B.  The
two colors are 1 and 2 (the search flips the side to move with `color ^ 3`,
which swaps 1 and 2), empty is 0 and the border sentinel is 3.  `MAXINT`
and `MININT` are the extreme scores; `test_engine.py` treats 19000 as
"close to MAXINT", so the extremes are 20000 and -20000. -/
structure DefinesT where
  GRID_NUM : Nat := 21
  NOSTONE : Int := 0
  BLACK : Int := 1
  WHITE : Int := 2
  BORDER : Int := 3
  MAXINT : Int := 20000
  MININT : Int := -20000

/-- Modelled from the spec: the single `Defines` constant bundle. -/
def Defines : DefinesT := {}

/-- A board is the 21x21 grid of `defines` cell values, embedded as a total
function on integer coordinates; only indices 0..20 are ever consulted. -/
def Board : Type := Int → Int → Int

/-- One of the two coordinates of a move (`StonePosition` in `defines.py`). -/
structure StonePos where
  x : Int
  y : Int
deriving DecidableEq, Repr

/-- A two-stone move (`StoneMove` in `defines.py`): two positions plus the
mutable ordering score.  Python mixes ints and floats in the score; it is
embedded as an exact rational. -/
structure StoneMove where
  pos0 : StonePos
  pos1 : StonePos
  score : ℚ := 0
deriving DecidableEq, Repr

/-- Functional update of a single board cell. -/
def setCell (board : Board) (px py v : Int) : Board :=
  fun x y => if x = px ∧ y = py then v else board x y

/-- Embeds `tools.isValidPos`. -/
def isValidPos (x y : Int) : Bool :=
  0 < x && x < (Defines.GRID_NUM : Int) - 1 && 0 < y && y < (Defines.GRID_NUM : Int) - 1

/-- The coordinate guard `1 <= c <= 19` used throughout the source. -/
def inPlayable (x y : Int) : Bool :=
  1 ≤ x && x ≤ 19 && 1 ≤ y && y ≤ 19

/-- Embeds `tools.make_move`: place `color` on each of the move's coordinates that
lies in `[1,19]x[1,19]` (each coordinate is validated independently). -/
def make_move (board : Board) (move : StoneMove) (color : Int) : Board :=
  let b1 := if inPlayable move.pos0.x move.pos0.y then
    setCell board move.pos0.x move.pos0.y color else board
  if inPlayable move.pos1.x move.pos1.y then
    setCell b1 move.pos1.x move.pos1.y color else b1

/-- Embeds `tools.unmake_move`: clear each in-range coordinate of the move back to
`NOSTONE`. -/
def unmake_move (board : Board) (move : StoneMove) : Board :=
  let b1 := if inPlayable move.pos0.x move.pos0.y then
    setCell board move.pos0.x move.pos0.y Defines.NOSTONE else board
  if inPlayable move.pos1.x move.pos1.y then
    setCell b1 move.pos1.x move.pos1.y Defines.NOSTONE else b1

/-- Embeds `tools.init_board` applied to a fresh grid: border frame, empty interior.
Outside the grid the function is irrelevant (no source loop reaches it); it
is set to `NOSTONE`. -/
def initialBoard : Board :=
  fun x y =>
    if x = 0 ∨ x = 20 ∨ y = 0 ∨ y = 20 then Defines.BORDER
    else Defines.NOSTONE

/-- The four axis directions scanned by `tools.is_win_by_premove` (and by the
pattern recognizer). -/
def directions : List (Int × Int) := [(1, 0), (0, 1), (1, 1), (1, -1)]

/-- The fuel-bounded embedding of the `while board[tx][ty] == stone` walk of
`tools.is_win_by_premove`: the number of consecutive cells equal to `stone`
starting at `(x, y)` and stepping by `(dx, dy)`.  On a board with an intact
border frame the walk stops within the grid, so the fuel of 20 is never
exhausted and the value agrees with the unbounded Python loop. -/
def runCount (board : Board) (stone x y dx dy : Int) : Nat → Nat
  | 0 => 0
  | n + 1 =>
    if board x y = stone then runCount board stone (x + dx) (y + dy) dx dy n + 1
    else 0

/-- The `count` computed by `tools.is_win_by_premove` at position `(x, y)` in
direction `(dx, dy)`: the stone itself plus the forward and backward walks. -/
def premoveLineCount (board : Board) (stone x y dx dy : Int) : Nat :=
  runCount board stone (x + dx) (y + dy) dx dy 20 +
    runCount board stone (x - dx) (y - dy) (-dx) (-dy) 20 + 1

/-- Embeds `tools.is_win_by_premove`: for each direction and each of the move's two
positions, skip positions outside `[1,19]x[1,19]` and cells that are border
or empty, and report a win when the line count through the cell reaches 6. -/
def is_win_by_premove (board : Board) (preMove : StoneMove) : Bool :=
  directions.any fun d =>
    [preMove.pos0, preMove.pos1].any fun p =>
      if ¬ inPlayable p.x p.y then false
      else
        let movStone := board p.x p.y
        if movStone = Defines.BORDER ∨ movStone = Defines.NOSTONE then false
        else decide (6 ≤ premoveLineCount board movStone p.x p.y d.1 d.2)

/-! Theorems about `make_move` / `unmake_move` (claim C7). -/

theorem setCell_same (board : Board) (px py v : Int) :
    setCell board px py v px py = v := by
  simp [setCell]

theorem setCell_other (board : Board) (px py v x y : Int)
    (h : ¬ (x = px ∧ y = py)) : setCell board px py v x y = board x y := by
  simp [setCell, h]

/-- Claim C7: for every board, color and move whose two coordinates lie in
`[1,19]x[1,19]` and refer to empty cells, `make_move` followed by
`unmake_move` on the same move restores every cell of the board (borders
included) to its original value. -/
theorem make_unmake_restores (board : Board) (move : StoneMove) (color : Int)
    (h0 : inPlayable move.pos0.x move.pos0.y = true)
    (h1 : inPlayable move.pos1.x move.pos1.y = true)
    (e0 : board move.pos0.x move.pos0.y = Defines.NOSTONE)
    (e1 : board move.pos1.x move.pos1.y = Defines.NOSTONE) :
    unmake_move (make_move board move color) move = board := by
  funext x y
  by_cases hx0 : x = move.pos0.x ∧ y = move.pos0.y
  · obtain ⟨rfl, rfl⟩ := hx0
    simp [unmake_move, make_move, h0, h1, setCell, e0]
  · by_cases hx1 : x = move.pos1.x ∧ y = move.pos1.y
    · obtain ⟨rfl, rfl⟩ := hx1
      simp only [unmake_move, make_move, h0, h1, if_true]
      rw [setCell_same]
      exact e1.symm
    · simp only [unmake_move, make_move, h0, h1, if_true]
      rw [setCell_other _ _ _ _ _ _ hx1, setCell_other _ _ _ _ _ _ hx0,
        setCell_other _ _ _ _ _ _ hx1, setCell_other _ _ _ _ _ _ hx0]

/-! Claim C4: `is_win_by_premove` agrees with the existence of a line of six. -/

/-- Well-formedness from the claim: the border frame (rows/columns 0 and 20)
holds the border sentinel. -/
def WellBordered (board : Board) : Prop :=
  ∀ i ∈ List.range 21,
    board i 0 = Defines.BORDER ∧ board i 20 = Defines.BORDER ∧
    board 0 i = Defines.BORDER ∧ board 20 i = Defines.BORDER

instance (board : Board) : Decidable (WellBordered board) := by
  unfold WellBordered; infer_instance

theorem wellBordered_cell (board : Board) (hb : WellBordered board)
    (x y : Int) (hx0 : 0 ≤ x) (hx1 : x ≤ 20) (hy0 : 0 ≤ y) (hy1 : y ≤ 20)
    (h : x = 0 ∨ x = 20 ∨ y = 0 ∨ y = 20) : board x y = Defines.BORDER := by
  have hxmem : x.toNat ∈ List.range 21 := List.mem_range.mpr (by omega)
  have hymem : y.toNat ∈ List.range 21 := List.mem_range.mpr (by omega)
  have hxe : (x.toNat : Int) = x := Int.toNat_of_nonneg hx0
  have hye : (y.toNat : Int) = y := Int.toNat_of_nonneg hy0
  rcases h with h | h | h | h
  · have := (hb y.toNat hymem).2.2.1
    rw [hye] at this; rw [h]; exact this
  · have := (hb y.toNat hymem).2.2.2
    rw [hye] at this; rw [h]; exact this
  · have := (hb x.toNat hxmem).1
    rw [hxe] at this; rw [h]; exact this
  · have := (hb x.toNat hxmem).2.1
    rw [hxe] at this; rw [h]; exact this

/-- The claim's winning-line predicate: some coordinate of the move, playable
and occupied, lies on a run of six same-colored playable cells in one of the
four axis directions (`k` is the coordinate's index inside the window of 6). -/
def HasWinningLine (board : Board) (move : StoneMove) : Prop :=
  ∃ p, (p = move.pos0 ∨ p = move.pos1) ∧ inPlayable p.x p.y = true ∧
    board p.x p.y ≠ Defines.BORDER ∧ board p.x p.y ≠ Defines.NOSTONE ∧
    ∃ d ∈ directions, ∃ k : Int, 0 ≤ k ∧ k ≤ 5 ∧
      ∀ j : Int, 0 ≤ j → j ≤ 5 →
        inPlayable (p.x + (j - k) * d.1) (p.y + (j - k) * d.2) = true ∧
        board (p.x + (j - k) * d.1) (p.y + (j - k) * d.2) = board p.x p.y

theorem runCount_match (board : Board) (stone dx dy : Int) :
    ∀ (n : Nat) (x y : Int) (j : Nat), j < runCount board stone x y dx dy n →
      board (x + j * dx) (y + j * dy) = stone := by
  intro n
  induction n with
  | zero => intro x y j h; simp [runCount] at h
  | succ n ih =>
    intro x y j h
    rw [runCount] at h
    by_cases hc : board x y = stone
    · rw [if_pos hc] at h
      cases j with
      | zero => simpa using hc
      | succ k =>
        have hk : k < runCount board stone (x + dx) (y + dy) dx dy n := by omega
        have h2 := ih (x + dx) (y + dy) k hk
        have e1 : x + dx + (k : Int) * dx = x + ((k : Int) + 1) * dx := by ring
        have e2 : y + dy + (k : Int) * dy = y + ((k : Int) + 1) * dy := by ring
        rw [e1, e2] at h2
        convert h2 using 3
    · rw [if_neg hc] at h; omega

theorem le_runCount (board : Board) (stone dx dy : Int) :
    ∀ (n : Nat) (x y : Int) (m : Nat), m ≤ n →
      (∀ j : Nat, j < m → board (x + j * dx) (y + j * dy) = stone) →
      m ≤ runCount board stone x y dx dy n := by
  intro n
  induction n with
  | zero => intro x y m hm _; omega
  | succ n ih =>
    intro x y m hm hall
    cases m with
    | zero => omega
    | succ m =>
      have h0 : board x y = stone := by simpa using hall 0 (by omega)
      rw [runCount, if_pos h0]
      have hrec : m ≤ runCount board stone (x + dx) (y + dy) dx dy n := by
        refine ih (x + dx) (y + dy) m (by omega) (fun j hj => ?_)
        have h2 := hall (j + 1) (by omega)
        have e1 : x + ((j : Int) + 1) * dx = x + dx + (j : Int) * dx := by ring
        have e2 : y + ((j : Int) + 1) * dy = y + dy + (j : Int) * dy := by ring
        rw [show ((j + 1 : Nat) : Int) = (j : Int) + 1 by push_cast; ring, e1, e2] at h2
        exact h2
      omega

theorem runCount_le (board : Board) (stone dx dy : Int) (n : Nat) (x y : Int)
    (j : Nat) (h : board (x + j * dx) (y + j * dy) ≠ stone) :
    runCount board stone x y dx dy n ≤ j := by
  by_contra hlt
  push_neg at hlt
  exact h (runCount_match board stone dx dy n x y j hlt)

theorem inPlayable_iff (x y : Int) :
    inPlayable x y = true ↔ 1 ≤ x ∧ x ≤ 19 ∧ 1 ≤ y ∧ y ≤ 19 := by
  simp [inPlayable, Bool.and_eq_true, decide_eq_true_eq, and_assoc]

theorem step_playable (board : Board) (hb : WellBordered board)
    (stone dx dy x y : Int)
    (hdx : -1 ≤ dx ∧ dx ≤ 1) (hdy : -1 ≤ dy ∧ dy ≤ 1)
    (hstone : stone ≠ Defines.BORDER)
    (hp : inPlayable x y = true) (hm : board (x + dx) (y + dy) = stone) :
    inPlayable (x + dx) (y + dy) = true := by
  rw [inPlayable_iff] at hp
  rw [inPlayable_iff]
  by_contra hout
  have hB : board (x + dx) (y + dy) = Defines.BORDER := by
    refine wellBordered_cell board hb _ _ (by omega) (by omega) (by omega) (by omega) ?_
    omega
  exact hstone (hm ▸ hB)

theorem run_playable (board : Board) (hb : WellBordered board)
    (stone dx dy : Int)
    (hdx : -1 ≤ dx ∧ dx ≤ 1) (hdy : -1 ≤ dy ∧ dy ≤ 1)
    (hstone : stone ≠ Defines.BORDER) :
    ∀ (j : Nat) (x y : Int), inPlayable x y = true →
      (∀ i : Nat, 1 ≤ i → i ≤ j → board (x + i * dx) (y + i * dy) = stone) →
      inPlayable (x + j * dx) (y + j * dy) = true := by
  intro j
  induction j with
  | zero => intro x y hp _; simpa using hp
  | succ k ih =>
    intro x y hp hm
    have hplay : inPlayable (x + k * dx) (y + k * dy) = true :=
      ih x y hp (fun i h1 h2 => hm i h1 (by omega))
    have hm1 : board (x + k * dx + dx) (y + k * dy + dy) = stone := by
      have h2 := hm (k + 1) (by omega) (by omega)
      rw [show ((k + 1 : Nat) : Int) = (k : Int) + 1 by push_cast; ring] at h2
      have e1 : x + ((k : Int) + 1) * dx = x + k * dx + dx := by ring
      have e2 : y + ((k : Int) + 1) * dy = y + k * dy + dy := by ring
      rw [e1, e2] at h2
      exact h2
    have hstep := step_playable board hb stone dx dy _ _ hdx hdy hstone hplay hm1
    rw [show ((k + 1 : Nat) : Int) = (k : Int) + 1 by push_cast; ring]
    have e1 : x + ((k : Int) + 1) * dx = x + k * dx + dx := by ring
    have e2 : y + ((k : Int) + 1) * dy = y + k * dy + dy := by ring
    rw [e1, e2]
    exact hstep

theorem dir_bounds (d : Int × Int) (hd : d ∈ directions) :
    (-1 ≤ d.1 ∧ d.1 ≤ 1) ∧ (-1 ≤ d.2 ∧ d.2 ≤ 1) := by
  fin_cases hd <;> norm_num

/-- Claim C4: on a board with an intact border frame, `is_win_by_premove`
returns true iff some playable occupied coordinate of the move lies on a run
of at least 6 same-colored stones in one of the 4 axis directions. -/
theorem is_win_by_premove_iff (board : Board) (move : StoneMove)
    (hb : WellBordered board) :
    is_win_by_premove board move = true ↔ HasWinningLine board move := by
  constructor
  · intro h
    rw [is_win_by_premove, List.any_eq_true] at h
    obtain ⟨d, hd, h⟩ := h
    rw [List.any_eq_true] at h
    obtain ⟨p, hpmem, h⟩ := h
    by_cases hplay : inPlayable p.x p.y = true
    swap
    · rw [if_pos (by simpa using hplay)] at h; exact absurd h (by simp)
    rw [if_neg (by simp [hplay])] at h
    by_cases hbn : board p.x p.y = Defines.BORDER ∨ board p.x p.y = Defines.NOSTONE
    · rw [if_pos hbn] at h; exact absurd h (by simp)
    rw [if_neg hbn] at h
    push_neg at hbn
    have hcount : 6 ≤ premoveLineCount board (board p.x p.y) p.x p.y d.1 d.2 := by
      simpa using h
    obtain ⟨hdx, hdy⟩ := dir_bounds d hd
    set stone := board p.x p.y with hstone
    set f := runCount board stone (p.x + d.1) (p.y + d.2) d.1 d.2 20 with hf
    set b := runCount board stone (p.x - d.1) (p.y - d.2) (-d.1) (-d.2) 20 with hbk
    have hfb : 6 ≤ f + b + 1 := by
      simpa [premoveLineCount, ← hf, ← hbk] using hcount
    -- forward cells: offset 1..f matches stone and stays playable
    have hfwd : ∀ t : Nat, 1 ≤ t → t ≤ f →
        board (p.x + t * d.1) (p.y + t * d.2) = stone := by
      intro t h1 h2
      have := runCount_match board stone d.1 d.2 20 (p.x + d.1) (p.y + d.2)
        (t - 1) (by omega)
      have e1 : p.x + d.1 + ((t - 1 : Nat) : Int) * d.1 = p.x + (t : Int) * d.1 := by
        have : ((t - 1 : Nat) : Int) = (t : Int) - 1 := by omega
        rw [this]; ring
      have e2 : p.y + d.2 + ((t - 1 : Nat) : Int) * d.2 = p.y + (t : Int) * d.2 := by
        have : ((t - 1 : Nat) : Int) = (t : Int) - 1 := by omega
        rw [this]; ring
      rwa [e1, e2] at this
    have hbwd : ∀ s : Nat, 1 ≤ s → s ≤ b →
        board (p.x - s * d.1) (p.y - s * d.2) = stone := by
      intro s h1 h2
      have := runCount_match board stone (-d.1) (-d.2) 20 (p.x - d.1) (p.y - d.2)
        (s - 1) (by omega)
      have e1 : p.x - d.1 + ((s - 1 : Nat) : Int) * -d.1 = p.x - (s : Int) * d.1 := by
        have : ((s - 1 : Nat) : Int) = (s : Int) - 1 := by omega
        rw [this]; ring
      have e2 : p.y - d.2 + ((s - 1 : Nat) : Int) * -d.2 = p.y - (s : Int) * d.2 := by
        have : ((s - 1 : Nat) : Int) = (s : Int) - 1 := by omega
        rw [this]; ring
      rwa [e1, e2] at this
    have hfwdPlay : ∀ t : Nat, t ≤ f →
        inPlayable (p.x + t * d.1) (p.y + t * d.2) = true := by
      intro t ht
      exact run_playable board hb stone d.1 d.2 hdx hdy hbn.1 t p.x p.y hplay
        (fun i h1 h2 => hfwd i h1 (by omega))
    have hbwdPlay : ∀ s : Nat, s ≤ b →
        inPlayable (p.x - s * d.1) (p.y - s * d.2) = true := by
      intro s hs
      have := run_playable board hb stone (-d.1) (-d.2)
        (by constructor <;> omega) (by constructor <;> omega) hbn.1 s p.x p.y hplay
        (fun i h1 h2 => by
          have := hbwd i h1 (by omega)
          have e1 : p.x - (i : Int) * d.1 = p.x + (i : Int) * -d.1 := by ring
          have e2 : p.y - (i : Int) * d.2 = p.y + (i : Int) * -d.2 := by ring
          rwa [e1, e2] at this)
      have e1 : p.x + (s : Int) * -d.1 = p.x - (s : Int) * d.1 := by ring
      have e2 : p.y + (s : Int) * -d.2 = p.y - (s : Int) * d.2 := by ring
      rwa [e1, e2] at this
    refine ⟨p, ?_, hplay, hbn.1, hbn.2, d, hd, min (b : Int) 5, ?_, ?_, ?_⟩
    · simpa using hpmem
    · omega
    · omega
    · intro j hj0 hj5
      set k : Int := min (b : Int) 5 with hk
      rcases lt_trichotomy j k with hlt | heq | hgt
      · -- backward side of the window
        have hs1 : 1 ≤ k - j := by omega
        have hs5 : k - j ≤ (b : Int) := by omega
        set sn := (k - j).toNat with hsn
        have hsn1 : 1 ≤ sn := by omega
        have hsnb : sn ≤ b := by omega
        have hcast : ((sn : Int)) = k - j := by omega
        have e1 : p.x + (j - k) * d.1 = p.x - (sn : Int) * d.1 := by
          rw [hcast]; ring
        have e2 : p.y + (j - k) * d.2 = p.y - (sn : Int) * d.2 := by
          rw [hcast]; ring
        rw [e1, e2]
        exact ⟨hbwdPlay sn hsnb, hbwd sn hsn1 hsnb⟩
      · rw [heq]
        constructor
        · simpa using hplay
        · simp
      · -- forward side of the window
        have ht1 : 1 ≤ j - k := by omega
        have htf : j - k ≤ (f : Int) := by
          have hb5 : k = min (b : Int) 5 := hk
          rcases le_or_lt (b : Int) 5 with hble | hbgt
          · have : k = (b : Int) := by omega
            omega
          · have : k = 5 := by omega
            omega
        set tn := (j - k).toNat with htn
        have htn1 : 1 ≤ tn := by omega
        have htnf : tn ≤ f := by omega
        have hcast : ((tn : Int)) = j - k := by omega
        have e1 : p.x + (j - k) * d.1 = p.x + (tn : Int) * d.1 := by rw [hcast]
        have e2 : p.y + (j - k) * d.2 = p.y + (tn : Int) * d.2 := by rw [hcast]
        rw [e1, e2]
        exact ⟨hfwdPlay tn htnf, hfwd tn htn1 htnf⟩
  · rintro ⟨p, hpmem, hplay, hB, hN, d, hd, k, hk0, hk5, hwin⟩
    rw [is_win_by_premove, List.any_eq_true]
    refine ⟨d, hd, ?_⟩
    rw [List.any_eq_true]
    refine ⟨p, by rcases hpmem with h | h <;> simp [h], ?_⟩
    rw [if_neg (by simp [hplay]), if_neg (by simp [hB, hN])]
    simp only [decide_eq_true_eq]
    set stone := board p.x p.y with hstone
    have hfwd : (5 - k).toNat ≤
        runCount board stone (p.x + d.1) (p.y + d.2) d.1 d.2 20 := by
      refine le_runCount board stone d.1 d.2 20 (p.x + d.1) (p.y + d.2)
        (5 - k).toNat (by omega) (fun j hj => ?_)
      have hj5 : (j : Int) < 5 - k := by omega
      have h2 := (hwin ((j : Int) + 1 + k) (by omega) (by omega)).2
      have e1 : p.x + ((j : Int) + 1 + k - k) * d.1 = p.x + d.1 + (j : Int) * d.1 := by
        ring
      have e2 : p.y + ((j : Int) + 1 + k - k) * d.2 = p.y + d.2 + (j : Int) * d.2 := by
        ring
      rw [e1, e2] at h2
      exact h2
    have hbwd : k.toNat ≤
        runCount board stone (p.x - d.1) (p.y - d.2) (-d.1) (-d.2) 20 := by
      refine le_runCount board stone (-d.1) (-d.2) 20 (p.x - d.1) (p.y - d.2)
        k.toNat (by omega) (fun j hj => ?_)
      have hjk : (j : Int) < k := by omega
      have h2 := (hwin (k - (j : Int) - 1) (by omega) (by omega)).2
      have e1 : p.x + (k - (j : Int) - 1 - k) * d.1 = p.x - d.1 + (j : Int) * -d.1 := by
        ring
      have e2 : p.y + (k - (j : Int) - 1 - k) * d.2 = p.y - d.2 + (j : Int) * -d.2 := by
        ring
      rw [e1, e2] at h2
      exact h2
    rw [premoveLineCount]
    omega

/-- Concrete board with six black stones at (10,10)..(10,15). -/
def boardSixRow : Board :=
  fun x y =>
    if x = 10 ∧ 10 ≤ y ∧ y ≤ 15 then Defines.BLACK
    else initialBoard x y

/-- Witness for C4 on a concrete well-bordered board. -/
theorem is_win_by_premove_iff_witness :
    is_win_by_premove boardSixRow ⟨⟨10, 15⟩, ⟨10, 14⟩, 0⟩ = true ↔
      HasWinningLine boardSixRow ⟨⟨10, 15⟩, ⟨10, 14⟩, 0⟩ :=
  is_win_by_premove_iff boardSixRow ⟨⟨10, 15⟩, ⟨10, 14⟩, 0⟩ (by decide)

/-! Claims C6 and C1: the Zobrist hasher and the hash actually used by the
search engine. -/

/-- Embeds `zobrist_hash.ZobristHash`: one 64-bit value per (coordinate, color) pair
plus one side-to-move value.  The source draws the values from Python's
Mersenne Twister seeded with 42; the algebraic claims below hold for every
assignment, so the table is embedded as an unspecified one. -/
structure ZobristHash where
  hash_table : Int × Int × Int → Nat
  side_to_move_hash : Nat

/-- The playable coordinates `1..19` scanned by `compute_hash`
(`for x in range(1, 20)`). -/
def coordRange : List Int := (List.range 19).map (fun i => (i : Int) + 1)

/-- All playable cells in the scan order of `compute_hash`. -/
def gridCells : List (Int × Int) :=
  coordRange.flatMap (fun x => coordRange.map (fun y => (x, y)))

/-- Embeds `ZobristHash.compute_hash`: XOR the table value of every occupied cell
into the hash, then XOR the side value when white is to move. -/
def ZobristHash.compute_hash (z : ZobristHash) (board : Board) (color : Int) : Nat :=
  let h := gridCells.foldl (fun h c =>
    if board c.1 c.2 = Defines.BLACK then h ^^^ z.hash_table (c.1, c.2, Defines.BLACK)
    else if board c.1 c.2 = Defines.WHITE then h ^^^ z.hash_table (c.1, c.2, Defines.WHITE)
    else h) 0
  if color = Defines.WHITE then h ^^^ z.side_to_move_hash else h

/-- Embeds `ZobristHash.update_hash`: XOR a single (coordinate, color) value in or
out; the same operation serves placement and removal. -/
def ZobristHash.update_hash (z : ZobristHash) (current_hash : Nat) (x y color : Int) : Nat :=
  current_hash ^^^ z.hash_table (x, y, color)

/-- The (coordinate, color) key of an occupied cell, `none` for other cells;
mirrors the `if`/`elif` of `compute_hash`. -/
def occKey (board : Board) (c : Int × Int) : Option (Int × Int × Int) :=
  if board c.1 c.2 = Defines.BLACK then some (c.1, c.2, Defines.BLACK)
  else if board c.1 c.2 = Defines.WHITE then some (c.1, c.2, Defines.WHITE)
  else none

/-- The keys of all occupied cells, in scan order. -/
def occupiedKeys (board : Board) : List (Int × Int × Int) :=
  gridCells.filterMap (occKey board)

theorem foldl_hash_filterMap (z : ZobristHash) (board : Board) :
    ∀ (l : List (Int × Int)) (init : Nat),
      l.foldl (fun h c =>
        if board c.1 c.2 = Defines.BLACK then h ^^^ z.hash_table (c.1, c.2, Defines.BLACK)
        else if board c.1 c.2 = Defines.WHITE then h ^^^ z.hash_table (c.1, c.2, Defines.WHITE)
        else h) init =
      (l.filterMap (occKey board)).foldl (fun h k => h ^^^ z.hash_table k) init := by
  intro l
  induction l with
  | nil => intro init; rfl
  | cons c l ih =>
    intro init
    have hWB : ¬ (Defines.WHITE = Defines.BLACK) := by decide
    by_cases hB : board c.1 c.2 = Defines.BLACK
    · simp [List.foldl_cons, List.filterMap_cons, occKey, hB, ih]
    · by_cases hW : board c.1 c.2 = Defines.WHITE
      · simp [List.foldl_cons, List.filterMap_cons, occKey, hB, hW, hWB, ih]
      · simp [List.foldl_cons, List.filterMap_cons, occKey, hB, hW, ih]

theorem xor_right_swap (a b c : Nat) : a ^^^ b ^^^ c = a ^^^ c ^^^ b := by
  rw [Nat.xor_assoc, Nat.xor_assoc, Nat.xor_comm b c]

theorem foldl_xor_perm (z : ZobristHash) {l1 l2 : List (Int × Int × Int)}
    (p : l1.Perm l2) :
    ∀ init : Nat,
      l1.foldl (fun h k => h ^^^ z.hash_table k) init =
        l2.foldl (fun h k => h ^^^ z.hash_table k) init := by
  induction p with
  | nil => intro _; rfl
  | cons x _ ih => intro init; simp only [List.foldl_cons]; exact ih _
  | swap x y l => intro init; simp only [List.foldl_cons]; rw [xor_right_swap]
  | trans _ _ ih1 ih2 => intro init; rw [ih1, ih2]

/-- Claim C6: the full-board hash equals the XOR of the table values of the
occupied cells taken in any order, XORed with the side marker exactly when
white is to move; and the incremental update is self-inverse. -/
theorem compute_hash_xor_spec (z : ZobristHash) (board : Board) (color : Int)
    (l : List (Int × Int × Int)) (hl : l.Perm (occupiedKeys board)) :
    z.compute_hash board color =
      (l.foldl (fun h k => h ^^^ z.hash_table k) 0) ^^^
        (if color = Defines.WHITE then z.side_to_move_hash else 0) ∧
    ∀ (h : Nat) (x y c : Int),
      z.update_hash (z.update_hash h x y c) x y c = h := by
  constructor
  · rw [ZobristHash.compute_hash, foldl_hash_filterMap, ← occupiedKeys,
      ← foldl_xor_perm z hl 0]
    by_cases hc : color = Defines.WHITE
    · simp [hc]
    · simp [hc]
  · intro h x y c
    rw [ZobristHash.update_hash, ZobristHash.update_hash, Nat.xor_assoc,
      Nat.xor_self, Nat.xor_zero]

/-- A concrete Zobrist table for the witness. -/
def zobristDemo : ZobristHash where
  hash_table := fun k => (k.1 * 10000 + k.2.1 * 100 + k.2.2).toNat
  side_to_move_hash := 12345

/-- A small concrete board: black stones at (10,10) and (11,11) on an
otherwise initial board. -/
def boardTwoStones : Board :=
  fun x y =>
    if (x = 10 ∧ y = 10) ∨ (x = 11 ∧ y = 11) then Defines.BLACK
    else initialBoard x y

/-- Witness for C7 at a concrete board and move. -/
theorem make_unmake_restores_witness :
    unmake_move
      (make_move boardTwoStones
        ⟨⟨5, 5⟩, ⟨5, 6⟩, 0⟩ Defines.WHITE)
      ⟨⟨5, 5⟩, ⟨5, 6⟩, 0⟩ = boardTwoStones :=
  make_unmake_restores boardTwoStones ⟨⟨5, 5⟩, ⟨5, 6⟩, 0⟩ Defines.WHITE
    (by decide) (by decide) (by decide) (by decide)

/-- Witness for C6: the theorem applied to a concrete table, board and a
reordered key list. -/
theorem compute_hash_xor_spec_witness :
    zobristDemo.compute_hash boardTwoStones Defines.WHITE =
      ([( (11 : Int), (11 : Int), Defines.BLACK), ((10 : Int), (10 : Int), Defines.BLACK)].foldl
        (fun h k => h ^^^ zobristDemo.hash_table k) 0) ^^^
        (if Defines.WHITE = Defines.WHITE then zobristDemo.side_to_move_hash else 0) ∧
    ∀ (h : Nat) (x y c : Int),
      zobristDemo.update_hash (zobristDemo.update_hash h x y c) x y c = h :=
  compute_hash_xor_spec zobristDemo boardTwoStones Defines.WHITE
    [((11 : Int), (11 : Int), Defines.BLACK), ((10 : Int), (10 : Int), Defines.BLACK)]
    (by decide)

/-! Claim C1: the hash the search engine actually keys the transposition
table with.  `SearchEngine._hash_board` is
`hash(tuple(tuple(row) for row in self.m_board))` — CPython's built-in
tuple hash (the xxHash-style combiner of CPython >= 3.8 on 64-bit builds),
not the Zobrist fingerprint.  The embedding below computes the unsigned
64-bit accumulator; CPython reinterprets it as a signed machine word, which
preserves equality-with-zero. -/

def pyP1 : Nat := 11400714785074694791

def pyP2 : Nat := 14029467366897019727

def pyP5 : Nat := 2870177450012600261

def pyMod : Nat := 2 ^ 64

/-- Rotate left by 31 on 64 bits. -/
def pyRotl31 (a : Nat) : Nat := ((a <<< 31) + (a >>> 33)) % pyMod

/-- One lane of CPython's tuple hash combiner. -/
def pyTupleHashStep (acc lane : Nat) : Nat :=
  (pyRotl31 ((acc + lane * pyP2) % pyMod) * pyP1) % pyMod

/-- CPython's `tuple.__hash__` over already-hashed items. -/
def pyTupleHash (lanes : List Nat) : Nat :=
  let acc := lanes.foldl pyTupleHashStep pyP5
  let acc2 := (acc + (lanes.length ^^^ (pyP5 ^^^ 3527539))) % pyMod
  if acc2 = pyMod - 1 then 1546275796 else acc2

/-- CPython's `int.__hash__` for the (non-negative, small) cell values. -/
def pyIntHash (v : Int) : Nat := (v % (2 ^ 61 - 1)).toNat

/-- The 21 rows of the board grid, as scanned by `_hash_board`. -/
def boardRows (board : Board) : List (List Int) :=
  (List.range 21).map (fun x => (List.range 21).map (fun y => board (x : Int) (y : Int)))

/-- Embeds `SearchEngine._hash_board`: the built-in hash of the tuple of row
tuples. -/
def hash_board (board : Board) : Nat :=
  pyTupleHash ((boardRows board).map (fun row => pyTupleHash (row.map pyIntHash)))

/-- On the initial (empty) board with black to move the Zobrist fingerprint
is 0 for every table: no cell is occupied and the side marker is not
XORed. -/
theorem compute_hash_initial (z : ZobristHash) :
    z.compute_hash initialBoard Defines.BLACK = 0 := by
  have hkeys : gridCells.filterMap (occKey initialBoard) = [] := by decide
  simp only [ZobristHash.compute_hash]
  rw [foldl_hash_filterMap, hkeys]
  simp only [List.foldl_nil]
  rw [if_neg (by decide : ¬ (Defines.BLACK = Defines.WHITE))]

/-- Counterexample to C1: no Zobrist hasher whatsoever (in particular not
the seeded one of the source) agrees with the search engine's
transposition-table key on the initial position with black to move: the key
`_hash_board` produces there is nonzero while every Zobrist fingerprint of
that position is 0. -/
theorem hash_board_disagrees_with_zobrist :
    ¬ ∃ z : ZobristHash,
      hash_board initialBoard = z.compute_hash initialBoard Defines.BLACK := by
  rintro ⟨z, hz⟩
  rw [compute_hash_initial z] at hz
  revert hz
  decide

/-- Amended C1: the search engine keys every transposition-table probe
and store with `_hash_board`, the built-in hash of the board grid alone — a
function independent of the side to move — and this key does not agree with
`ZobristHash.compute_hash`: already at the initial position the key is
nonzero while the Zobrist fingerprint is 0 for every table. -/
theorem hash_board_not_zobrist :
    hash_board initialBoard ≠ 0 ∧
      ∀ z : ZobristHash, z.compute_hash initialBoard Defines.BLACK = 0 :=
  ⟨by decide, compute_hash_initial⟩

/-! Claims C3 and C8: the transposition table (`zobrist_hash.TranspositionTable`). -/

/-- Embeds `TranspositionTable.EXACT`. -/
def TT_EXACT : Nat := 0

/-- Embeds `TranspositionTable.LOWER_BOUND`. -/
def TT_LOWER_BOUND : Nat := 1

/-- Embeds `TranspositionTable.UPPER_BOUND`. -/
def TT_UPPER_BOUND : Nat := 2

/-- One stored transposition entry (the dict stored per hash key). -/
structure TTEntry where
  depth : Int
  score : Int
  flag : Nat
  best_move : Option StoneMove
  age : Nat
  threat_level : Int := 0
deriving DecidableEq, Repr

/-- The transposition table: the Python dict is embedded as an insertion-
ordered association list with unique keys (dicts preserve insertion order,
and replacement keeps the original slot).  The hit/miss counters are pure
statistics and are omitted. -/
structure TranspositionTable where
  table : List (Nat × TTEntry)
  max_size : Nat := 500000
  current_age : Nat := 0
deriving DecidableEq, Repr

/-- The ascending sort order of `TranspositionTable._cleanup`: Python sorts
the `(key, age, depth)` triples by `(age, -depth)` — age ascending and, on
equal ages, depth DESCENDING (the in-source comment says "shallowest
first", the lambda does the opposite). -/
def cleanupLe (a b : Nat × Nat × Int) : Bool :=
  a.2.1 < b.2.1 || (a.2.1 = b.2.1 && b.2.2 ≤ a.2.2)

/-- One step of a stable insertion sort: insert `a` after every already
placed element `b` with `le b a`, so that ties keep their original order
exactly as Python's stable `list.sort` does. -/
def insertOrdered {α : Type} (le : α → α → Bool) (a : α) : List α → List α
  | [] => [a]
  | b :: l => if le b a then b :: insertOrdered le a l else a :: b :: l

/-- Python's stable ascending sort, embedded as a stable insertion sort. -/
def pySorted {α : Type} (le : α → α → Bool) (l : List α) : List α :=
  l.foldl (fun acc a => insertOrdered le a acc) []

/-- Embeds `TranspositionTable._cleanup`: sort the `(key, age, depth)` triples with
`cleanupLe` and delete the first fifth of the keys. -/
def ttCleanup (t : TranspositionTable) : TranspositionTable :=
  let entries_by_age := t.table.map (fun p => (p.1, p.2.age, p.2.depth))
  let sorted := pySorted cleanupLe entries_by_age
  let remove_count := sorted.length / 5
  let removed := (sorted.take remove_count).map (fun e => e.1)
  { t with table := t.table.filter (fun p => ¬ removed.contains p.1) }

/-- The replacement test of `TranspositionTable.store`: new depth greater,
or same depth from a newer age, or exact bound over a non-exact one. -/
def ttShouldReplace (current_age : Nat) (depth : Int) (flag : Nat)
    (old : TTEntry) : Prop :=
  old.depth < depth ∨ (depth = old.depth ∧ old.age < current_age) ∨
    (flag = TT_EXACT ∧ old.flag ≠ TT_EXACT)

instance (a : Nat) (d : Int) (f : Nat) (old : TTEntry) :
    Decidable (ttShouldReplace a d f old) := by
  unfold ttShouldReplace; infer_instance

/-- Embeds `TranspositionTable.store`: keep the old entry unless the replacement
test passes (returning before any cleanup), otherwise write the new entry
and run `_cleanup` when the table has outgrown `max_size`. -/
def ttStore (t : TranspositionTable) (hash_key : Nat) (depth score : Int)
    (flag : Nat) (best_move : Option StoneMove) (threat_level : Int) :
    TranspositionTable :=
  let entry : TTEntry :=
    ⟨depth, score, flag, best_move, t.current_age, threat_level⟩
  match t.table.lookup hash_key with
  | some old =>
    if ttShouldReplace t.current_age depth flag old then
      let t2 : TranspositionTable :=
        { t with table := t.table.map (fun p => if p.1 = hash_key then (hash_key, entry) else p) }
      if t2.max_size < t2.table.length then ttCleanup t2 else t2
    else t
  | none =>
    let t2 : TranspositionTable :=
      { t with table := t.table ++ [(hash_key, entry)] }
    if t2.max_size < t2.table.length then ttCleanup t2 else t2

/-- Embeds `TranspositionTable.probe`: `(found, score, best_move)`; no hit when the
entry is absent or shallower than requested, a usable score for an exact
bound, a lower bound at or above beta, or an upper bound at or below
alpha. -/
def ttProbe (t : TranspositionTable) (hash_key : Nat) (depth alpha beta : Int) :
    Bool × Option Int × Option StoneMove :=
  match t.table.lookup hash_key with
  | none => (false, none, none)
  | some entry =>
    if entry.depth < depth then (false, none, entry.best_move)
    else if entry.flag = TT_EXACT then (true, some entry.score, entry.best_move)
    else if entry.flag = TT_LOWER_BOUND ∧ beta ≤ entry.score then
      (true, some entry.score, entry.best_move)
    else if entry.flag = TT_UPPER_BOUND ∧ entry.score ≤ alpha then
      (true, some entry.score, entry.best_move)
    else (false, none, entry.best_move)

theorem lookup_map_replace (h : Nat) (e : TTEntry) :
    ∀ l : List (Nat × TTEntry), (l.lookup h).isSome = true →
      (l.map (fun p => if p.1 = h then (h, e) else p)).lookup h = some e := by
  intro l
  induction l with
  | nil => intro hc; simp [List.lookup] at hc
  | cons p l ih =>
    obtain ⟨k, v⟩ := p
    intro hc
    by_cases hk : k = h
    · subst hk
      simp only [List.map_cons]
      simp [List.lookup]
    · have hbeq : (h == k) = false := by
        simp only [beq_eq_false_iff_ne]; exact fun he => hk he.symm
      simp only [List.map_cons]
      rw [if_neg hk]
      simp only [List.lookup, hbeq] at hc ⊢
      exact ih hc

theorem length_map_replace (h : Nat) (e : TTEntry) (l : List (Nat × TTEntry)) :
    (l.map (fun p => if p.1 = h then (h, e) else p)).length = l.length := by
  simp

/-- Claim C3: (a) after a store of score `s` at depth `D` that actually wrote
its entry, probing the same key at depth `d ≤ D` with a matching bound /
window returns `s`; (b) a store at strictly greater depth always replaces
the existing shallower entry (the stored table staying within capacity);
(c) otherwise an existing entry is replaced only when the depth is equal
but the generation newer, or the new bound exact and the old one not —
else the table is returned untouched. -/
theorem tt_store_probe_spec (t : TranspositionTable) (h : Nat) (D s : Int)
    (flag : Nat) (m : Option StoneMove) (d alpha beta : Int) :
    (((ttStore t h D s flag m 0).table.lookup h =
        some ⟨D, s, flag, m, t.current_age, 0⟩) →
      d ≤ D →
      (flag = TT_EXACT ∨ (flag = TT_LOWER_BOUND ∧ beta ≤ s) ∨
        (flag = TT_UPPER_BOUND ∧ s ≤ alpha)) →
      ttProbe (ttStore t h D s flag m 0) h d alpha beta = (true, some s, m)) ∧
    (∀ old, t.table.lookup h = some old → old.depth < D →
      t.table.length ≤ t.max_size →
      (ttStore t h D s flag m 0).table.lookup h =
        some ⟨D, s, flag, m, t.current_age, 0⟩) ∧
    (∀ old, t.table.lookup h = some old →
      ¬ ttShouldReplace t.current_age D flag old →
      ttStore t h D s flag m 0 = t) := by
  refine ⟨?_, ?_, ?_⟩
  · intro hlook hd hmatch
    simp only [ttProbe, hlook]
    rw [if_neg (by simp only [not_lt]; exact hd)]
    rcases hmatch with hf | ⟨hf, hw⟩ | ⟨hf, hw⟩
    · rw [if_pos hf]
    · subst hf
      rw [if_neg (by decide), if_pos ⟨rfl, hw⟩]
    · subst hf
      rw [if_neg (by decide),
        if_neg (by rintro ⟨hc, -⟩; exact absurd hc (by decide)),
        if_pos ⟨rfl, hw⟩]
  · intro old hold hdepth hsize
    have hrepl : ttShouldReplace t.current_age D flag old := Or.inl hdepth
    simp only [ttStore, hold]
    rw [if_pos hrepl]
    have hlen : (t.table.map
        (fun p => if p.1 = h then (h, (⟨D, s, flag, m, t.current_age, 0⟩ : TTEntry)) else p)).length =
        t.table.length := length_map_replace h _ t.table
    rw [if_neg (by simp only [hlen]; omega)]
    exact lookup_map_replace h _ t.table (by rw [hold]; rfl)
  · intro old hold hnot
    simp only [ttStore, hold]
    rw [if_neg hnot]

/-- A concrete transposition table for the C3 witness: one entry of depth 2. -/
def ttDemo : TranspositionTable where
  table := [(5, ⟨2, 11, TT_LOWER_BOUND, none, 0, 0⟩)]
  max_size := 10
  current_age := 1

/-- Witness for C3: store depth 3 / exact / score 77 over the depth-2 entry,
then probe at depth 3. -/
theorem tt_store_probe_spec_witness :
    ttProbe (ttStore ttDemo 5 3 77 TT_EXACT none 0) 5 3 (-100) 100 =
      (true, some 77, none) := by
  have H := tt_store_probe_spec ttDemo 5 3 77 TT_EXACT none 3 (-100) 100
  have hw := H.2.1 ⟨2, 11, TT_LOWER_BOUND, none, 0, 0⟩ (by decide) (by decide)
    (by decide)
  exact H.1 hw (by decide) (Or.inl rfl)

/-- The C8 failing input: a full table (capacity 4) of four same-age entries
with depths 5, 1, 2, 3 under keys 1..4; storing a fifth entry (key 5,
depth 4) overflows the capacity and triggers `_cleanup`. -/
def ttFull : TranspositionTable where
  table :=
    [(1, ⟨5, 0, TT_EXACT, none, 0, 0⟩),
     (2, ⟨1, 0, TT_EXACT, none, 0, 0⟩),
     (3, ⟨2, 0, TT_EXACT, none, 0, 0⟩),
     (4, ⟨3, 0, TT_EXACT, none, 0, 0⟩)]
  max_size := 4
  current_age := 0

/-- Claim C8, code bug evaluated: on `ttFull` the overflow cleanup removes
the DEEPEST same-age entry (key 1, depth 5) and keeps the shallowest
(key 2, depth 1) — the sort key `(age, -depth)` orders deepest first,
contradicting the claim (and the in-source comment) that ties in age are
broken by shallowest depth first. -/
theorem tt_cleanup_removes_deepest :
    ((ttStore ttFull 5 4 0 TT_EXACT none 0).table.lookup 1 = none) ∧
    ((ttStore ttFull 5 4 0 TT_EXACT none 0).table.lookup 2 =
      some ⟨1, 0, TT_EXACT, none, 0, 0⟩) ∧
    ((ttStore ttFull 5 4 0 TT_EXACT none 0).table.length = 4) := by
  decide

/-! Claims C5 and C10: the pattern recognizer (`pattern_recognition.py`). -/

/-- Embeds `pattern_recognition.ThreatPattern`. -/
structure ThreatPattern where
  pattern_type : String
  positions : List (Int × Int)
  threat_level : Nat
  win_positions : List (Int × Int)
deriving DecidableEq, Repr

/-- The `pattern_scores` weight dictionary (`.get(type, 0)` on lookup). -/
def pattern_scores (s : String) : Int :=
  if s = "SIX_IN_ROW" then 10000000
  else if s = "FIVE_IN_ROW" then 5000000
  else if s = "OPEN_FOUR" then 5000000
  else if s = "DOUBLE_FOUR" then 800000
  else if s = "STRAIGHT_FOUR" then 2000000
  else if s = "FOUR_THREE" then 400000
  else if s = "OPEN_THREE" then 200000
  else if s = "DOUBLE_THREE" then 80000
  else if s = "STRAIGHT_THREE" then 5000
  else if s = "OPEN_TWO" then 1000
  else if s = "SPLIT_THREE" then 500
  else if s = "LOOSE_TWO" then 100
  else if s = "DIAMOND" then 2000
  else if s = "SQUARE" then 1500
  else if s = "BRIDGE" then 800
  else 0

/-- Embeds `PatternRecognizer._classify_threat`: the (pattern, level) table over run
length and end openness. -/
def classify_threat (length : Nat) (before_open after_open : Bool) :
    Option String × Nat :=
  let both_open := before_open && after_open
  let one_open := before_open || after_open
  if 6 ≤ length then (some "SIX_IN_ROW", 5)
  else if length = 5 then (some "FIVE_IN_ROW", 5)
  else if length = 4 then
    if both_open then (some "OPEN_FOUR", 5)
    else if one_open then (some "STRAIGHT_FOUR", 4)
    else (none, 0)
  else if length = 3 then
    if both_open then (some "OPEN_THREE", 3)
    else if one_open then (some "STRAIGHT_THREE", 2)
    else (none, 0)
  else if length = 2 then
    if both_open then (some "OPEN_TWO", 2)
    else if one_open then (some "LOOSE_TWO", 1)
    else (none, 0)
  else (none, 0)

/-- Claim C5: `_classify_threat` realizes exactly the spec's table for every
run length and openness, and the resulting levels are non-increasing along
six-in-row, five, open-four, straight-four, open-three, straight-three,
open-two, loose-two, with a strict drop from open-three to
straight-three. -/
theorem classify_threat_table :
    (∀ L, 6 ≤ L → ∀ b a, classify_threat L b a = (some "SIX_IN_ROW", 5)) ∧
    (∀ b a, classify_threat 5 b a = (some "FIVE_IN_ROW", 5)) ∧
    (classify_threat 4 true true = (some "OPEN_FOUR", 5) ∧
      classify_threat 4 true false = (some "STRAIGHT_FOUR", 4) ∧
      classify_threat 4 false true = (some "STRAIGHT_FOUR", 4) ∧
      classify_threat 4 false false = (none, 0)) ∧
    (classify_threat 3 true true = (some "OPEN_THREE", 3) ∧
      classify_threat 3 true false = (some "STRAIGHT_THREE", 2) ∧
      classify_threat 3 false true = (some "STRAIGHT_THREE", 2) ∧
      classify_threat 3 false false = (none, 0)) ∧
    (classify_threat 2 true true = (some "OPEN_TWO", 2) ∧
      classify_threat 2 true false = (some "LOOSE_TWO", 1) ∧
      classify_threat 2 false true = (some "LOOSE_TWO", 1) ∧
      classify_threat 2 false false = (none, 0)) ∧
    ((classify_threat 6 true true).2 ≥ (classify_threat 5 true true).2 ∧
      (classify_threat 5 true true).2 ≥ (classify_threat 4 true true).2 ∧
      (classify_threat 4 true true).2 ≥ (classify_threat 4 true false).2 ∧
      (classify_threat 4 true false).2 ≥ (classify_threat 3 true true).2 ∧
      (classify_threat 3 true true).2 > (classify_threat 3 true false).2 ∧
      (classify_threat 3 true false).2 ≥ (classify_threat 2 true true).2 ∧
      (classify_threat 2 true true).2 ≥ (classify_threat 2 true false).2) := by
  refine ⟨?_, ?_, by decide, by decide, by decide, by decide⟩
  · intro L hL b a
    simp [classify_threat, hL]
  · intro b a
    cases b <;> cases a <;> decide

/-- Witness for C5's universally quantified six-in-row clause, at length 7. -/
theorem classify_threat_table_witness :
    classify_threat 7 false true = (some "SIX_IN_ROW", 5) :=
  classify_threat_table.1 7 (by decide) false true

/-- The bounds-checked walk of `_analyze_line`
(`while 1 <= tx <= 19 and 1 <= ty <= 19 and board == color`): the number of
consecutive in-range cells of `color` from `(x, y)` on.  Fuel 20 exceeds
the 19 playable cells of any line, so it is never exhausted. -/
def consecCount (board : Board) (color x y dx dy : Int) : Nat → Nat
  | 0 => 0
  | n + 1 =>
    if inPlayable x y ∧ board x y = color then
      consecCount board color (x + dx) (y + dy) dx dy n + 1
    else 0

/-- The `consecutive` count of `_analyze_line`: the cell itself plus the
in-range same-colored cells after it. -/
def consecOf (board : Board) (color x y dx dy : Int) : Nat :=
  consecCount board color (x + dx) (y + dy) dx dy 20 + 1

/-- The backward walk of `_analyze_line` locating the start of the run. -/
def backStart (board : Board) (color x y dx dy : Int) : Nat → Int × Int
  | 0 => (x, y)
  | n + 1 =>
    if inPlayable (x - dx) (y - dy) ∧ board (x - dx) (y - dy) = color then
      backStart board color (x - dx) (y - dy) dx dy n
    else (x, y)

/-- Whether a cell is in range and empty (the `before_open` / `after_open`
test of `_analyze_line`). -/
def cellOpen (board : Board) (x y : Int) : Bool :=
  inPlayable x y && decide (board x y = Defines.NOSTONE)

/-- Embeds `PatternRecognizer._analyze_line`: count the run from `(x, y)` forwards,
give up below 2, find the run start backwards, test the two ends, classify,
and collect the completion cells (the open ends, the open after-end again
when a same-colored stone sits one step beyond it). -/
def analyze_line (board : Board) (x y : Int) (d : Int × Int) (color : Int) :
    Option ThreatPattern :=
  let dx := d.1
  let dy := d.2
  let consecutive := consecOf board color x y dx dy
  if consecutive < 2 then none
  else
    let s := backStart board color x y dx dy 20
    let positions := (List.range consecutive).map
      (fun i => (s.1 + (i : Int) * dx, s.2 + (i : Int) * dy))
    let bix := s.1 - dx
    let biy := s.2 - dy
    let aix := s.1 + (consecutive : Int) * dx
    let aiy := s.2 + (consecutive : Int) * dy
    let before_open := cellOpen board bix biy
    let after_open := cellOpen board aix aiy
    let cls := classify_threat consecutive before_open after_open
    let win_positions :=
      (if before_open then [(bix, biy)] else []) ++
      (if after_open then [(aix, aiy)] else []) ++
      (if after_open && decide (3 ≤ consecutive) &&
          inPlayable (aix + dx) (aiy + dy) &&
          decide (board (aix + dx) (aiy + dy) = color) then
        [(aix, aiy)] else [])
    match cls.1 with
    | some pt => some ⟨pt, positions, cls.2, win_positions⟩
    | none => none

/-- The aggregate produced by `PatternRecognizer.analyze_position`. -/
structure Analysis where
  threats : List ThreatPattern
  score : Int
  critical_level : Nat
  winning_moves : List (Int × Int)
  defensive_moves : List (Int × Int)
deriving DecidableEq, Repr

/-- Embeds `PatternRecognizer.analyze_position`: scan every cell of `color` in every
direction, collect the threats, total their weights, track the maximal
level, and split the completion cells into winning (level 5 and up) and
defensive (level exactly 4) moves.  Python deduplicates through a `set`;
the embedding uses `List.dedup`, which preserves membership (order is not
relied upon by any claim). -/
def analyze_position (board : Board) (color : Int) : Analysis :=
  let threats := gridCells.flatMap (fun c =>
    if board c.1 c.2 = color then
      directions.filterMap (fun d => analyze_line board c.1 c.2 d color)
    else [])
  { threats := threats
    score := threats.foldl (fun s t => s + pattern_scores t.pattern_type) 0
    critical_level := threats.foldl (fun m t => max m t.threat_level) 0
    winning_moves :=
      ((threats.filter (fun t => 5 ≤ t.threat_level)).flatMap
        (fun t => t.win_positions)).dedup
    defensive_moves :=
      ((threats.filter (fun t => ¬ 5 ≤ t.threat_level ∧ 4 ≤ t.threat_level)).flatMap
        (fun t => t.win_positions)).dedup }

theorem cellOpen_spec (board : Board) (x y : Int)
    (h : cellOpen board x y = true) :
    inPlayable x y = true ∧ board x y = Defines.NOSTONE := by
  simpa [cellOpen] using h

theorem analyze_line_win_valid (board : Board) (x y : Int) (d : Int × Int)
    (color : Int) (t : ThreatPattern)
    (h : analyze_line board x y d color = some t) :
    ∀ p ∈ t.win_positions, inPlayable p.1 p.2 = true ∧
      board p.1 p.2 = Defines.NOSTONE := by
  intro p hp
  simp only [analyze_line] at h
  split at h
  · exact absurd h (by simp)
  · split at h
    case _ pt heq =>
      cases h
      simp only [List.mem_append] at hp
      rcases hp with (hp | hp) | hp
      · revert hp
        split
        case isTrue hop =>
          intro hp
          have := cellOpen_spec _ _ _ hop
          simp only [List.mem_singleton] at hp
          subst hp
          exact this
        case isFalse _ => intro hp; exact absurd hp (by simp)
      · revert hp
        split
        case isTrue hop =>
          intro hp
          have := cellOpen_spec _ _ _ hop
          simp only [List.mem_singleton] at hp
          subst hp
          exact this
        case isFalse _ => intro hp; exact absurd hp (by simp)
      · revert hp
        split
        case isTrue hop =>
          intro hp
          simp only [Bool.and_eq_true] at hop
          have := cellOpen_spec _ _ _ hop.1.1.1
          simp only [List.mem_singleton] at hp
          subst hp
          exact this
        case isFalse _ => intro hp; exact absurd hp (by simp)
    case _ => exact absurd h (by simp)

theorem analyze_position_threat_mem (board : Board) (color : Int)
    (t : ThreatPattern) (ht : t ∈ (analyze_position board color).threats) :
    ∃ x y d, analyze_line board x y d color = some t := by
  simp only [analyze_position, List.mem_flatMap] at ht
  obtain ⟨c, _, hc⟩ := ht
  revert hc
  split
  · intro hc
    simp only [List.mem_filterMap] at hc
    obtain ⟨dd, _, hdd⟩ := hc
    exact ⟨c.1, c.2, dd, hdd⟩
  · intro hc; exact absurd hc (by simp)

/-- Claim C10: on a board whose playable cells hold only empty/black/white,
every coordinate in the `winning_moves` and `defensive_moves` lists of
`analyze_position` lies in `[1,19]x[1,19]` and names an empty cell. -/
theorem analyze_position_moves_valid (board : Board) (color : Int)
    (_hvals : ∀ c ∈ gridCells, board c.1 c.2 = Defines.NOSTONE ∨
      board c.1 c.2 = Defines.BLACK ∨ board c.1 c.2 = Defines.WHITE)
    (p : Int × Int)
    (hp : p ∈ (analyze_position board color).winning_moves ∨
      p ∈ (analyze_position board color).defensive_moves) :
    inPlayable p.1 p.2 = true ∧ board p.1 p.2 = Defines.NOSTONE := by
  have key : ∀ (f : ThreatPattern → Prop) (hf : DecidablePred f),
      p ∈ (((analyze_position board color).threats.filter
        (fun t => decide (f t))).flatMap (fun t => t.win_positions)).dedup →
      inPlayable p.1 p.2 = true ∧ board p.1 p.2 = Defines.NOSTONE := by
    intro f hf hmem
    rw [List.mem_dedup, List.mem_flatMap] at hmem
    obtain ⟨t, htmem, hpwin⟩ := hmem
    have ht : t ∈ (analyze_position board color).threats :=
      List.mem_of_mem_filter htmem
    obtain ⟨x, y, d, hline⟩ := analyze_position_threat_mem board color t ht
    exact analyze_line_win_valid board x y d color t hline p hpwin
  rcases hp with hp | hp
  · exact key (fun t => 5 ≤ t.threat_level) (by infer_instance) (by
      simpa [analyze_position] using hp)
  · exact key (fun t => ¬ 5 ≤ t.threat_level ∧ 4 ≤ t.threat_level)
      (by infer_instance) (by simpa [analyze_position] using hp)

/-- Witness for C10: on the six-in-a-row board, (10,9) is reported as a
winning move and is indeed an empty playable cell. -/
theorem analyze_position_moves_valid_witness :
    inPlayable 10 9 = true ∧ boardSixRow 10 9 = Defines.NOSTONE :=
  analyze_position_moves_valid boardSixRow Defines.BLACK (by decide)
    (10, 9) (Or.inl (by decide))

/-! Claim C2: `MoveGenerator.generate_moves` and the evaluator queries it
relies on (`evaluation.py`, `move_generator.py`).  Python float arithmetic
(`* 0.8`) only feeds ordering scores and is embedded as exact rationals. -/

/-- Embeds `Evaluator.detect_immediate_win`: the winning-move cells of the
analysis. -/
def detect_immediate_win (board : Board) (color : Int) : List (Int × Int) :=
  (analyze_position board color).winning_moves

/-- One record of `Evaluator.detect_critical_moves`. -/
structure CriticalMove where
  position : Int × Int
  threat_level : Nat
  score : Int
deriving DecidableEq, Repr

/-- Stable descending order on critical moves by `(threat_level, score)`,
the key of `critical_moves.sort(..., reverse=True)`. -/
def critLe (u v : CriticalMove) : Bool :=
  v.threat_level < u.threat_level ||
    (v.threat_level = u.threat_level && v.score ≤ u.score)

/-- Embeds `Evaluator.detect_critical_moves`: tentatively place a stone on every
empty cell, record position/level/score when the resulting critical level
reaches 3, undo, and sort descending by level then score. -/
def detect_critical_moves (board : Board) (color : Int) : List CriticalMove :=
  let collected := gridCells.filterMap (fun c =>
    if board c.1 c.2 = Defines.NOSTONE then
      let analysis := analyze_position (setCell board c.1 c.2 color) color
      if 3 ≤ analysis.critical_level then
        some ⟨c, analysis.critical_level, analysis.score⟩
      else none
    else none)
  pySorted critLe collected

/-- One threat combination of
`PatternRecognizer.find_threat_combinations` (`ctype` embeds the `'type'`
key). -/
structure ThreatCombo where
  ctype : String
  score : Int
  moves : List (Int × Int)
deriving DecidableEq, Repr

/-- Intersection of position lists (Python intersects sets; only membership
is ever consumed). -/
def listInter (l1 l2 : List (Int × Int)) : List (Int × Int) :=
  l1.filter (fun p => decide (p ∈ l2))

/-- Embeds `PatternRecognizer.find_threat_combinations`: shared completion points
of two fours (double four), of a four and a three (four-three), and of two
open threes (double three). -/
def find_threat_combinations (board : Board) (color : Int) : List ThreatCombo :=
  let analysis := analyze_position board color
  let threats := analysis.threats
  let fours := threats.filter (fun t => 4 ≤ t.threat_level)
  let part1 :=
    if 2 ≤ fours.length then
      let winning_sets := fours.map (fun t => t.win_positions)
      let shared := match winning_sets with
        | [] => []
        | s :: rest => rest.foldl listInter s
      if shared ≠ [] then [(⟨"DOUBLE_FOUR", 900000, shared⟩ : ThreatCombo)] else []
    else []
  let threes := threats.filter (fun t => t.threat_level = 3)
  let part2 :=
    if fours ≠ [] ∧ threes ≠ [] then
      let four_wins := fours.flatMap (fun t => t.win_positions)
      let three_wins := threes.flatMap (fun t => t.win_positions)
      let shared := listInter four_wins three_wins
      if shared ≠ [] then [(⟨"FOUR_THREE", 400000, shared⟩ : ThreatCombo)] else []
    else []
  let open_threes := threats.filter (fun t => t.pattern_type = "OPEN_THREE")
  let part3 :=
    if 2 ≤ open_threes.length then
      let winning_sets := open_threes.map (fun t => t.win_positions)
      let shared := match winning_sets with
        | [] => []
        | s :: rest => rest.foldl listInter s
      if shared ≠ [] then [(⟨"DOUBLE_THREE", 80000, shared⟩ : ThreatCombo)] else []
    else []
  part1 ++ part2 ++ part3

/-- The dictionary returned by `Evaluator.get_threat_analysis`. -/
structure ThreatInfo where
  our_analysis : Analysis
  opp_analysis : Analysis
  our_combinations : List ThreatCombo
  opp_combinations : List ThreatCombo
  critical_situation : Bool
deriving DecidableEq, Repr

/-- Embeds `Evaluator.get_threat_analysis`: both sides' analyses and combinations;
the position is critical when either side's critical level reaches 4. -/
def get_threat_analysis (board : Board) (color : Int) : ThreatInfo :=
  let our_analysis := analyze_position board color
  let opponent := if color = Defines.WHITE then Defines.BLACK else Defines.WHITE
  let opp_analysis := analyze_position board opponent
  let our_combos := find_threat_combinations board color
  let opp_combos := find_threat_combinations board opponent
  ⟨our_analysis, opp_analysis, our_combos, opp_combos,
    decide (4 ≤ our_analysis.critical_level) ||
      decide (4 ≤ opp_analysis.critical_level)⟩

/-- The history-heuristic dictionary of `MoveGenerator` (coordinate pair to
accumulated bonus). -/
def HistoryTable : Type := List (((Int × Int) × (Int × Int)) × Int)

/-- Embeds `MoveGenerator._create_center_move`. -/
def create_center_move : StoneMove := ⟨⟨10, 10⟩, ⟨11, 11⟩, 0⟩

/-- Stable descending order on moves by score
(`moves.sort(key=..., reverse=True)`). -/
def moveLe (u v : StoneMove) : Bool := v.score ≤ u.score

/-- Embeds `MoveGenerator._count_line_length`: bounds-checked consecutive stones
through `(x, y)` in both directions. -/
def count_line_length (board : Board) (x y dx dy color : Int) : Nat :=
  consecCount board color (x + dx) (y + dy) dx dy 20 +
    consecCount board color (x - dx) (y - dy) (-dx) (-dy) 20 + 1

def offsets3x3 : List (Int × Int) :=
  (([-1, 0, 1] : List Int).flatMap (fun dx => ([-1, 0, 1] : List Int).map (fun dy => (dx, dy)))).filter
    (fun o => ¬ (o.1 = 0 ∧ o.2 = 0))

def offsets5x5 : List (Int × Int) :=
  ([-2, -1, 0, 1, 2] : List Int).flatMap
    (fun dx => ([-2, -1, 0, 1, 2] : List Int).map (fun dy => (dx, dy)))

/-- Embeds `MoveGenerator._quick_eval_position`: place the stone, score the longest
resulting line, undo, and add center-proximity and same-color-neighbor
bonuses. -/
def quick_eval_position (board : Board) (x y color : Int) : Int :=
  let b2 := setCell board x y color
  let max_length := directions.foldl
    (fun m d => max m (count_line_length b2 x y d.1 d.2 color)) 0
  let threat_score : Int :=
    if 5 ≤ max_length then 50000
    else if max_length = 4 then 5000
    else if max_length = 3 then 500
    else if max_length = 2 then 50
    else 0
  let center_dist : Int := (x - 10).natAbs + (y - 10).natAbs
  let adjacent := (offsets3x3.filter (fun o =>
    inPlayable (x + o.1) (y + o.2) &&
      decide (board (x + o.1) (y + o.2) = color))).length
  threat_score + (20 - center_dist) * 3 + (adjacent : Int) * 15

/-- The candidate-collection loops of `_generate_standard_moves`: empty
cells in the 5x5 neighborhood of any occupied cell, each quick-evaluated,
with the `positions_checked > 400` safety exit breaking out of all loops. -/
def standardCollect (board : Board) (color : Int) : List ((Int × Int) × Int) :=
  (gridCells.foldl (fun st c =>
    if st.2.1 then st
    else if board c.1 c.2 ≠ Defines.NOSTONE then
      offsets5x5.foldl (fun (st2 : Nat × Bool × List ((Int × Int) × Int)) o =>
        if st2.2.1 then st2
        else
          let checked := st2.1 + 1
          if 400 < checked then (checked, true, st2.2.2)
          else
            let nx := c.1 + o.1
            let ny := c.2 + o.2
            if inPlayable nx ny ∧ board nx ny = Defines.NOSTONE then
              (checked, false,
                st2.2.2 ++ [((nx, ny), quick_eval_position board nx ny color)])
            else (checked, false, st2.2.2)) st
    else st) ((0, false, []) : Nat × Bool × List ((Int × Int) × Int))).2.2

def centerRange : List Int := (List.range 7).map (fun i => (i : Int) + 7)

/-- The empty-board fallback of `_generate_standard_moves`: center cells
`7..13` scored by center proximity. -/
def centerFallback (board : Board) : List ((Int × Int) × Int) :=
  (centerRange.flatMap (fun x => centerRange.map (fun y => (x, y)))).filterMap
    (fun c =>
      if board c.1 c.2 = Defines.NOSTONE then
        some (c, 100 - ((c.1 - 10).natAbs + (c.2 - 10).natAbs : Int))
      else none)

/-- The `unique_candidates` dict build: keep the maximal score per position,
preserving first-insertion order (as a Python dict does). -/
def updateMax (acc : List ((Int × Int) × Int)) (p : (Int × Int) × Int) :
    List ((Int × Int) × Int) :=
  match acc.lookup p.1 with
  | none => acc ++ [p]
  | some old =>
    if old < p.2 then acc.map (fun q => if q.1 = p.1 then (q.1, p.2) else q)
    else acc

/-- Stable descending order by score for `(position, score)` pairs. -/
def scoreDescLe (u v : (Int × Int) × Int) : Bool := v.2 ≤ u.2

/-- The pairwise combination loops of `_generate_standard_moves`
(`i < min(15, n)`, `i < j < min(20, n)`), with proximity and history
bonuses; the `max_moves` break is the `take` applied by the caller. -/
def standardPairs (top : List ((Int × Int) × Int)) (history : HistoryTable) :
    List StoneMove :=
  (List.range (min 15 top.length)).flatMap (fun i =>
    ((List.range (min 20 top.length)).drop (i + 1)).map (fun j =>
      let pi := top.getD i ((0, 0), 0)
      let pj := top.getD j ((0, 0), 0)
      let dist : Int := (pi.1.1 - pj.1.1).natAbs + (pi.1.2 - pj.1.2).natAbs
      let proximity_bonus : Int := max 0 (20 - dist * 2)
      let hist : Int := match List.lookup (pi.1, pj.1) history with
        | some v => v
        | none => 0
      (⟨⟨pi.1.1, pi.1.2⟩, ⟨pj.1.1, pj.1.2⟩,
        ((pi.2 + pj.2 + proximity_bonus + hist : Int) : ℚ)⟩ : StoneMove)))

/-- Embeds `MoveGenerator._generate_standard_moves`. -/
def generate_standard_moves (board : Board) (color : Int) (depth : Int)
    (max_moves : Nat) (history : HistoryTable) : List StoneMove :=
  let candidate_positions := standardCollect board color
  let candidate_positions :=
    if candidate_positions = [] then centerFallback board else candidate_positions
  let unique := candidate_positions.foldl updateMax []
  let sorted_candidates := pySorted scoreDescLe unique
  let top_positions := sorted_candidates.take (min 30 sorted_candidates.length)
  let moves := (standardPairs top_positions history).take max_moves
  let moves := pySorted moveLe moves
  if moves ≠ [] then moves.take max_moves else [create_center_move]

/-- Embeds `MoveGenerator._create_winning_moves`: both winning cells as one move,
or the single winning cell paired with critical cells (falling back to
nearby empty cells, then to the center move).  The empty-list case is
unreachable (the caller guards non-emptiness; Python would raise
`IndexError`). -/
def create_winning_moves (win_positions : List (Int × Int)) (board : Board)
    (color : Int) : List StoneMove :=
  match win_positions with
  | p0 :: p1 :: _ => [⟨⟨p0.1, p0.2⟩, ⟨p1.1, p1.2⟩, 100000000⟩]
  | [p0] =>
    let candidates := detect_critical_moves board color
    let moves := (candidates.take 10).filterMap (fun cand =>
      if cand.position ≠ p0 then
        some (⟨⟨p0.1, p0.2⟩, ⟨cand.position.1, cand.position.2⟩,
          (100000000 : ℚ) + (cand.score : ℚ)⟩ : StoneMove)
      else none)
    if moves ≠ [] then moves
    else
      let nearby := (offsets5x5.filterMap (fun o =>
        let q := (p0.1 + o.1, p0.2 + o.2)
        if inPlayable q.1 q.2 ∧ board q.1 q.2 = Defines.NOSTONE ∧ q ≠ p0 then
          some (⟨⟨p0.1, p0.2⟩, ⟨q.1, q.2⟩, 100000000⟩ : StoneMove)
        else none)).take 10
      if nearby ≠ [] then nearby else [create_center_move]
  | [] => []

/-- Embeds `MoveGenerator._create_desperate_defense`: both blocking cells as one
move. -/
def create_desperate_defense (threat_positions : List (Int × Int))
    (board : Board) (color : Int) : List StoneMove :=
  match threat_positions with
  | t0 :: t1 :: _ => [⟨⟨t0.1, t0.2⟩, ⟨t1.1, t1.2⟩, 90000000⟩]
  | _ => [create_center_move]

/-- Embeds `MoveGenerator._create_defensive_counterattack`: pair the single block
with each of up to 30 own critical cells, scored by counter-threat level. -/
def create_defensive_counterattack (threat_pos : Int × Int) (board : Board)
    (color : Int) (max_moves : Nat) : List StoneMove :=
  let our_critical := detect_critical_moves board color
  let moves := (our_critical.take 30).filterMap (fun critical =>
    if critical.position ≠ threat_pos then
      some (⟨⟨threat_pos.1, threat_pos.2⟩,
        ⟨critical.position.1, critical.position.2⟩,
        (80000000 : ℚ) + (critical.threat_level : ℚ) * 1000000 +
          (critical.score : ℚ)⟩ : StoneMove)
    else none)
  let moves := pySorted moveLe moves
  if moves ≠ [] then moves.take max_moves else [create_center_move]

/-- The opponent lookup on line 149 of `move_generator.py`:
`Defines.BLACK if color == Defines.WHITE else Defines.opponent`.  The
`Defines` bundle (modelled from the spec) has no `opponent` member, so for
any color other than white the attribute access raises. -/
def criticalOpponent (color : Int) : Except String Int :=
  if color = Defines.WHITE then Except.ok Defines.BLACK
  else Except.error "AttributeError: type object Defines has no attribute opponent"

def seenInsert (s : List (Int × Int)) (p : Int × Int) : List (Int × Int) :=
  if p ∈ s then s else s ++ [p]

/-- The attack+attack / attack+block pairing loops of
`_generate_critical_moves`, carrying the `seen` set. -/
def criticalPairs (our_critical opp_critical : List CriticalMove) :
    List StoneMove :=
  (our_critical.take 20).foldl (fun (st : List StoneMove × List (Int × Int)) move1 =>
    let pos1 := move1.position
    if pos1 ∈ st.2 then st
    else
      let st2 := (our_critical.take 15).foldl
        (fun (st2 : List StoneMove × List (Int × Int)) move2 =>
          let pos2 := move2.position
          if pos2 ≠ pos1 ∧ pos2 ∉ st2.2 then
            (st2.1 ++ [(⟨⟨pos1.1, pos1.2⟩, ⟨pos2.1, pos2.2⟩,
              ((move1.score + move2.score : Int) : ℚ) +
                ((move1.threat_level + move2.threat_level : Nat) : ℚ) * 100000⟩ :
              StoneMove)],
              seenInsert (seenInsert st2.2 pos1) pos2)
          else st2) st
      (opp_critical.take 10).foldl
        (fun (st3 : List StoneMove × List (Int × Int)) move2 =>
          let pos2 := move2.position
          if pos2 ≠ pos1 ∧ pos2 ∉ st3.2 then
            (st3.1 ++ [(⟨⟨pos1.1, pos1.2⟩, ⟨pos2.1, pos2.2⟩,
              (move1.score : ℚ) - (move2.score : ℚ) * (4 / 5) +
                ((move1.threat_level : Nat) : ℚ) * 100000⟩ : StoneMove)],
              st3.2)
          else st3) st2) (([], []) : List StoneMove × List (Int × Int)) |>.1

/-- Embeds `MoveGenerator._generate_critical_moves`: combine own critical cells
with each other and with the opponent's; the opponent color lookup on
line 149 raises for any color other than white (`Defines.opponent`). -/
def generate_critical_moves (board : Board) (color : Int)
    (threat_info : ThreatInfo) (max_moves : Nat) (history : HistoryTable) :
    Except String (List StoneMove) :=
  let our_critical := detect_critical_moves board color
  match criticalOpponent color with
  | Except.error e => Except.error e
  | Except.ok opponent =>
    let opp_critical := detect_critical_moves board opponent
    let moves := pySorted moveLe (criticalPairs our_critical opp_critical)
    if moves ≠ [] then Except.ok (moves.take max_moves)
    else Except.ok (generate_standard_moves board color 0 max_moves history)

/-- Embeds `MoveGenerator.generate_moves`: the strict priority cascade — PV move,
own immediate win, forced defense, critical-position generation, standard
generation. -/
def generate_moves (board : Board) (color : Int) (depth : Int)
    (max_moves : Nat) (pv_move : Option StoneMove) (history : HistoryTable) :
    Except String (List StoneMove) :=
  let opponent := if color = Defines.WHITE then Defines.BLACK else Defines.WHITE
  match pv_move with
  | some pv => Except.ok [pv]
  | none =>
    let our_wins := detect_immediate_win board color
    if our_wins ≠ [] then Except.ok (create_winning_moves our_wins board color)
    else
      match detect_immediate_win board opponent with
      | w1 :: rest =>
        if 2 ≤ (w1 :: rest).length then
          Except.ok (create_desperate_defense (w1 :: rest) board color)
        else
          Except.ok (create_defensive_counterattack w1 board color max_moves)
      | [] =>
        let threat_info := get_threat_analysis board color
        if threat_info.critical_situation then
          generate_critical_moves board color threat_info max_moves history
        else
          Except.ok (generate_standard_moves board color depth max_moves history)

/-- The C2 failing input: black holds a straight four (10,10)..(10,13) with
the (10,9) end blocked by white — a critical position (level 4) with no
immediate win on either side. -/
def boardStraightFour : Board :=
  fun x y =>
    if x = 10 ∧ 10 ≤ y ∧ y ≤ 13 then Defines.BLACK
    else if x = 10 ∧ y = 9 then Defines.WHITE
    else initialBoard x y

/-- Claim C2, code bug evaluated: on the straight-four board the cascade
reaches the critical tier with black to move, and `generate_moves` raises
`AttributeError` at the `Defines.opponent` lookup of `move_generator.py`
line 149 (everywhere else the source writes
`Defines.BLACK if color == Defines.WHITE else Defines.WHITE`) instead of
returning a non-empty move list. -/
theorem generate_moves_black_raises :
    generate_moves boardStraightFour Defines.BLACK 1 40 none [] =
      Except.error "AttributeError: type object Defines has no attribute opponent" := by
  rfl

/-! Claim C9: the immediate return of `SearchEngine._alpha_beta` when the
move that led to the node has already completed six in a row
(`search_engine.py` lines 271-275). -/

/-- The win-check return of `_alpha_beta`: with `pre_move` already winning,
return `MININT + depth` when the engine side (`m_chess_type`) is to move —
the opponent just completed six — and `MAXINT - depth` otherwise.  `depth`
is the REMAINING search depth: on the unreduced path of a root search of
depth `D`, a node `p` plies below the root is searched with
`depth = D - p`, so positions nearer the root carry a LARGER `depth`. -/
def alphaBetaWinScore (chessType color depth : Int) : Int :=
  if color = chessType then Defines.MININT + depth
  else Defines.MAXINT - depth

/-- Counterexample to C9: in a depth-5 root search, a win by the engine
(black, to-move color white) at 1 ply from the root is scored with
remaining depth 4 and a win at 3 plies with remaining depth 2; the claim
demands the shorter win to have strictly greater magnitude, but
`|MAXINT - 4| = 19996 < 19998 = |MAXINT - 2|`. -/
theorem alphaBetaWinScore_shorter_not_greater :
    ¬ ((alphaBetaWinScore Defines.BLACK Defines.WHITE 4).natAbs >
        (alphaBetaWinScore Defines.BLACK Defines.WHITE 2).natAbs) := by
  decide

/-- Amended C9: the win check returns the depth-adjusted extreme score
`MININT + depth` / `MAXINT - depth`, whose magnitude strictly DECREASES as
the remaining depth grows: wins reached in fewer plies from the root
(greater remaining depth) are scored with strictly smaller magnitude, and
likewise shallower losses are scored strictly less negatively — the code
prefers deeper wins, the reverse of the claim. -/
theorem alphaBetaWinScore_deeper_is_larger (chessType color d1 d2 : Int)
    (_h0 : 0 ≤ d1) (h12 : d1 < d2) (h2 : d2 ≤ 30) :
    (alphaBetaWinScore chessType color d2).natAbs <
      (alphaBetaWinScore chessType color d1).natAbs ∧
    (color = chessType →
      alphaBetaWinScore chessType color d1 <
        alphaBetaWinScore chessType color d2) := by
  have hM : Defines.MAXINT = 20000 := rfl
  have hm : Defines.MININT = -20000 := rfl
  unfold alphaBetaWinScore
  rw [hM, hm]
  by_cases hc : color = chessType
  · rw [if_pos hc]
    refine ⟨by omega, fun _ => by omega⟩
  · rw [if_neg hc]
    exact ⟨by omega, fun h => absurd h hc⟩

/-- Witness for the amended C9 at remaining depths 2 and 4. -/
theorem alphaBetaWinScore_deeper_is_larger_witness :
    (alphaBetaWinScore Defines.BLACK Defines.WHITE 4).natAbs <
      (alphaBetaWinScore Defines.BLACK Defines.WHITE 2).natAbs ∧
    (Defines.WHITE = Defines.BLACK →
      alphaBetaWinScore Defines.BLACK Defines.WHITE 2 <
        alphaBetaWinScore Defines.BLACK Defines.WHITE 4) :=
  alphaBetaWinScore_deeper_is_larger Defines.BLACK Defines.WHITE 2 4
    (by decide) (by decide) (by decide)

end Connect6
